import Mathlib

/-!
Verification of the fluent-bit AWS credential subsystem
(`src/flb_aws_credentials.c`) and the CloudWatch Logs / S3 output plugins
(`plugins/out_cloudwatch_logs/cloudwatch_logs.c`,
`plugins/out_stdout/s3_multipart.c`) against their specification.

The C sources are shallowly embedded: machine integers become `Int`/`Nat`,
`flb_sds_t`/`char *` buffers become `List Char` or `String`, NULL-able
pointers become `Option`, and the network/file I/O boundary is passed in as
an explicit parameter.  Each definition mirrors one C function; line numbers
in comments refer to the C sources.
-/

/-! ## Constants

`FLB_AWS_REFRESH_WINDOW` and the JSON key names live in
`flb_aws_credentials.h`, which is not in the tree.  Modelled from the spec:
the glossary fixes REFRESH_WINDOW at 5 minutes, and the response-format
comment at `flb_aws_credentials.c:810-817` fixes the key names. -/

def FLB_AWS_REFRESH_WINDOW : Int := 300

def AWS_HTTP_RESPONSE_ACCESS_KEY : String := "AccessKeyId"

def AWS_HTTP_RESPONSE_SECRET_KEY : String := "SecretAccessKey"

def AWS_HTTP_RESPONSE_TOKEN : String := "Token"

def AWS_HTTP_RESPONSE_EXPIRATION : String := "Expiration"

/-! ## Credential record (struct aws_credentials)

Fields are `flb_sds_t` strings; each may be NULL during construction and
`session_token` may be NULL in a complete credential. -/

structure aws_credentials where
  access_key_id : Option String
  secret_access_key : Option String
  session_token : Option String
deriving DecidableEq, Repr

/-! ## aws_credentials_destroy (flb_aws_credentials.c:958-973)

The embedding returns the trace of arguments handed to `flb_sds_destroy`,
in call order, so that the guard structure is observable.  The source:

    if (creds->access_key_id)     flb_sds_destroy(creds->access_key_id);
    if (creds->secret_access_key) flb_sds_destroy(creds->secret_access_key);
    if (creds->secret_access_key) flb_sds_destroy(creds->session_token);

Note the third guard tests `secret_access_key` (line 967) while destroying
`session_token` (line 968). -/

def aws_credentials_destroy (creds : Option aws_credentials) : List (Option String) :=
  match creds with
  | none => []
  | some c =>
      (if c.access_key_id.isSome then [c.access_key_id] else [])
      ++ (if c.secret_access_key.isSome then [c.secret_access_key] else [])
      ++ (if c.secret_access_key.isSome then [c.session_token] else [])

/-! ## Cached providers: IMDS and HTTP/ECS

`struct aws_credentials_provider_imds` (flb_aws_credentials.c:50-61) and
`struct aws_credentials_provider_http` (flb_aws_credentials.c:36-45).
The I/O body of a refresh (`get_creds_imds` resp.
`http_credentials_request`) is passed in as `fetch`: `none` models a failed
attempt (network error, non-200, unparsable document), `some (c, exp)` a
successful one delivering credentials `c` with expiration `exp`; on success
the C code stores the credentials and sets
`cred_refresh = expiration - FLB_AWS_REFRESH_WINDOW`
(flb_aws_credentials.c:565-566 and 760-761). -/

structure aws_credentials_provider_imds where
  credentials : Option aws_credentials
  cred_refresh : Int
  imds_v2_token : Option String
  imds_v2_token_len : Nat
  token_refresh : Int
deriving DecidableEq, Repr

structure aws_credentials_provider_http where
  credentials : Option aws_credentials
  cred_refresh : Int
  host : String
  path : String
deriving DecidableEq, Repr

/-- `get_credentials_fn_imds` (flb_aws_credentials.c:336-383).  Refreshes
when there is no cached credential or `time(NULL) > cred_refresh`; returns
NULL when the refresh fails, otherwise a by-value clone of the cached
credential.  Allocation of the clone is modelled as succeeding. -/
def get_credentials_fn_imds (st : aws_credentials_provider_imds) (now : Int)
    (fetch : Option (aws_credentials × Int)) :
    Option aws_credentials × aws_credentials_provider_imds :=
  if st.credentials = none ∨ now > st.cred_refresh then
    match fetch with
    | none => (none, st)
    | some (c, expiration) =>
        let st1 : aws_credentials_provider_imds :=
          { st with credentials := some c,
                    cred_refresh := expiration - FLB_AWS_REFRESH_WINDOW }
        (st1.credentials, st1)
  else
    (st.credentials, st)

/-- `get_credentials_fn_http` (flb_aws_credentials.c:579-625), same caching
structure as the IMDS provider. -/
def get_credentials_fn_http (st : aws_credentials_provider_http) (now : Int)
    (fetch : Option (aws_credentials × Int)) :
    Option aws_credentials × aws_credentials_provider_http :=
  if st.credentials = none ∨ now > st.cred_refresh then
    match fetch with
    | none => (none, st)
    | some (c, expiration) =>
        let st1 : aws_credentials_provider_http :=
          { st with credentials := some c,
                    cred_refresh := expiration - FLB_AWS_REFRESH_WINDOW }
        (st1.credentials, st1)
  else
    (st.credentials, st)

/-! ## The standard chain provider (flb_aws_credentials.c:80-224) -/

inductive provider_tag where
  | env
  | profile
  | eks
  | imds
  | ecs
deriving DecidableEq, Repr

/-- `new_ecs_provider` (flb_aws_credentials.c:771-806): declines to
construct (returns NULL) unless `AWS_CONTAINER_CREDENTIALS_RELATIVE_URI`
is set and non-empty. -/
def new_ecs_provider (path_var : Option String) : Option provider_tag :=
  match path_var with
  | some s => if s.length > 0 then some provider_tag.ecs else none
  | none => none

/-- `new_standard_chain_provider` (flb_aws_credentials.c:152-224): env and
IMDS providers are always added; profile, EKS and ECS are added only when
their construction succeeds.  `profile_ok` / `eks_ok` model whether
`new_profile_provider` / `new_eks_provider` return non-NULL (HOME set,
running in k8s); the ECS decision is `new_ecs_provider` itself. -/
def new_standard_chain_provider (profile_ok eks_ok : Bool)
    (ecs_path_var : Option String) : List provider_tag :=
  [provider_tag.env]
  ++ (if profile_ok then [provider_tag.profile] else [])
  ++ (if eks_ok then [provider_tag.eks] else [])
  ++ [provider_tag.imds]
  ++ (new_ecs_provider ecs_path_var).toList

/-- `get_credentials_fn_standard_chain` (flb_aws_credentials.c:80-103):
walks the sub-provider list, returning the first non-NULL result, NULL when
every sub-provider returns NULL.  The list element is the outcome of that
sub-provider's own `get_credentials` on this call. -/
def get_credentials_fn_standard_chain :
    List (Option aws_credentials) → Option aws_credentials
  | [] => none
  | r :: rest =>
      match r with
      | some c => some c
      | none => get_credentials_fn_standard_chain rest

def canonical_chain_order : List provider_tag :=
  [provider_tag.env, provider_tag.profile, provider_tag.eks,
   provider_tag.imds, provider_tag.ecs]

/-! ## The shared HTTP credential-document parser
(`process_http_credentials_response`, flb_aws_credentials.c:820-944)

The jsmn tokenizer is an external library (spec section 1 lists JSON
tokenization as an assumed library service); its output is passed in:
`none` models `JSMN_ERROR_INVAL` / `JSMN_ERROR_PART`, `some toks` a
successful parse filling `toks.length` tokens.  A jsmn STRING token's
`start` is the index after the opening quote and `end` the index of the
closing quote.  The C field `end` is a Lean keyword and is embedded as
`tok_end`. -/

inductive jsmntype where
  | OBJECT
  | ARRAY
  | STRING
  | PRIMITIVE
  | UNDEFINED
deriving DecidableEq, Repr

structure jsmntok where
  type : jsmntype
  start : Int
  tok_end : Int
  size : Int
deriving DecidableEq, Repr

def NUL : Char := Char.ofNat 0

/-- `response[i] = '\0'`: the C stores a NUL byte at offset `i`.  The
modelled range is `0 ≤ i < length` (the callers below always write inside
the sds buffer); outside it the write is dropped. -/
def write_nul (buf : List Char) (i : Int) : List Char :=
  if 0 ≤ i then buf.set i.toNat NUL else buf

/-- The C string starting at byte offset `i` of the buffer (what `strcmp`
and `strptime` read from `&response[t->start]`): the bytes up to the first
NUL. -/
def cstring_at (buf : List Char) (i : Int) : List Char :=
  if 0 ≤ i then (buf.drop i.toNat).takeWhile (fun c => c != NUL) else []

/-- `flb_sds_create_len(&response[i], n)`: copies `n` raw bytes from offset
`i` (the source passes the token's `size` field here). -/
def bytes_at (buf : List Char) (i n : Int) : List Char :=
  if 0 ≤ i then (buf.drop i.toNat).take n.toNat else []

def tok_at (tokens : List jsmntok) (i : Nat) : jsmntok :=
  tokens.getD i ⟨jsmntype.UNDEFINED, -1, -1, 0⟩

/-! ### parse_expiration (flb_aws_credentials.c:946-956) -/

structure struct_tm where
  tm_year : Nat
  tm_mon : Nat
  tm_mday : Nat
  tm_hour : Nat
  tm_min : Nat
  tm_sec : Nat
deriving DecidableEq, Repr

def read_digits_aux : Nat → Nat → List Char → Nat × List Char
  | acc, 0, cs => (acc, cs)
  | acc, _ + 1, [] => (acc, [])
  | acc, w + 1, c :: cs =>
      if c.isDigit then read_digits_aux (acc * 10 + (c.toNat - 48)) w cs
      else (acc, c :: cs)

def read_num (w lo hi : Nat) (cs : List Char) : Option (Nat × List Char) :=
  match cs with
  | [] => none
  | c :: _ =>
      if c.isDigit then
        let r := read_digits_aux 0 w cs
        if lo ≤ r.1 ∧ r.1 ≤ hi then some r else none
      else none

def match_lit (ch : Char) (cs : List Char) : Option (List Char) :=
  match cs with
  | [] => none
  | c :: rest => if c = ch then some rest else none

/-- Modelled from the C library: `strptime(s, "%Y-%m-%dT%H:%M:%SZ", &tm)`.
Each numeric directive reads up to its field width of digits and
range-checks; a literal matches one character; input after the last
directive is ignored (strptime reports it through its return pointer). -/
def strptime_model (cs : List Char) : Option struct_tm := do
  let (y, r1) ← read_num 4 0 9999 cs
  let r2 ← match_lit '-' r1
  let (mo, r3) ← read_num 2 1 12 r2
  let r4 ← match_lit '-' r3
  let (d, r5) ← read_num 2 1 31 r4
  let r6 ← match_lit 'T' r5
  let (h, r7) ← read_num 2 0 23 r6
  let r8 ← match_lit ':' r7
  let (mi, r9) ← read_num 2 0 59 r8
  let r10 ← match_lit ':' r9
  let (s, r11) ← read_num 2 0 61 r10
  let _ ← match_lit 'Z' r11
  pure ⟨y, mo, d, h, mi, s⟩

inductive ParseExpResult where
  | undef
  | val (t : Int)
deriving DecidableEq, Repr

/-- `parse_expiration` (flb_aws_credentials.c:946-956).  The failure branch
returns 0.  The success branch stores `timegm(&tm)` into a local variable
and then falls off the end of this non-void function without returning, so
the value the caller receives is unspecified: `ParseExpResult.undef`. -/
def parse_expiration (timestamp : List Char) : ParseExpResult :=
  match strptime_model timestamp with
  | some _ => ParseExpResult.undef
  | none => ParseExpResult.val 0

def cumulative_month_days (m : Nat) : Nat :=
  [0, 0, 31, 59, 90, 120, 151, 181, 212, 243, 273, 304, 334].getD m 0

def is_leap_year (y : Nat) : Bool :=
  (y % 4 == 0 && y % 100 != 0) || y % 400 == 0

/-- Modelled from the C library: `timegm`, UTC epoch seconds of a
broken-down time (proleptic Gregorian; month here is 1-based). -/
def timegm_model (t : struct_tm) : Int :=
  let y1 : Int := (t.tm_year : Int) - 1
  let civil_days : Int :=
    365 * y1 + (y1 / 4 - y1 / 100 + y1 / 400)
      + (cumulative_month_days t.tm_mon : Int)
      + (if is_leap_year t.tm_year && decide (t.tm_mon > 2) then 1 else 0)
      + ((t.tm_mday : Int) - 1)
  (civil_days - 719162) * 86400
    + (t.tm_hour : Int) * 3600 + (t.tm_min : Int) * 60 + (t.tm_sec : Int)

/-! ### The parsing loop (flb_aws_credentials.c:867-933)

The loop walks tokens while `i < tokens_size - 1`.  For every STRING token
it first stores a NUL at `t->end + 1` (line 876 resp. 921) and only then
reads the C string at `t->start` for the `strcmp` key tests; a matching key
advances to the value token, copies `t->size` bytes and `continue`s (so the
value token is itself examined on the next iteration); the Expiration
branch parses the value and returns NULL if the stored expiration is 0.
`g` is the unspecified `time_t` the caller reads when `parse_expiration`
falls through (see `ParseExpResult.undef`); quantifying over `g` covers all
behaviors.  `fuel` bounds the structural recursion; each iteration advances
`i` by at least one, so the callers' `tokens.length + 1` never runs out
before the loop guard exits. -/

structure phcr_state where
  buf : List Char
  access_key_id : Option String
  secret_access_key : Option String
  session_token : Option String
  expiration : Option Int
deriving DecidableEq, Repr

inductive phcr_loop_result where
  | finished (st : phcr_state)
  | failed (st : phcr_state)
deriving DecidableEq, Repr

def phcr_loop (tokens : List jsmntok) (g : Int) :
    Nat → Nat → phcr_state → phcr_loop_result
  | 0, _, st => phcr_loop_result.finished st
  | fuel + 1, i, st =>
    if i + 1 < tokens.length then
      let t := tok_at tokens i
      if t.start = -1 ∨ t.tok_end = -1 ∨ (t.start = 0 ∧ t.tok_end = 0) then
        phcr_loop_result.finished st
      else if t.type = jsmntype.STRING then
        let buf1 := write_nul st.buf (t.tok_end + 1)
        let key := cstring_at buf1 t.start
        if key = AWS_HTTP_RESPONSE_ACCESS_KEY.data then
          let tv := tok_at tokens (i + 1)
          phcr_loop tokens g fuel (i + 1)
            { st with buf := buf1,
                      access_key_id := some (String.mk (bytes_at buf1 tv.start tv.size)) }
        else if key = AWS_HTTP_RESPONSE_SECRET_KEY.data then
          let tv := tok_at tokens (i + 1)
          phcr_loop tokens g fuel (i + 1)
            { st with buf := buf1,
                      secret_access_key := some (String.mk (bytes_at buf1 tv.start tv.size)) }
        else if key = AWS_HTTP_RESPONSE_TOKEN.data then
          let tv := tok_at tokens (i + 1)
          phcr_loop tokens g fuel (i + 1)
            { st with buf := buf1,
                      session_token := some (String.mk (bytes_at buf1 tv.start tv.size)) }
        else if key = AWS_HTTP_RESPONSE_EXPIRATION.data then
          let tv := tok_at tokens (i + 1)
          let buf2 := write_nul buf1 (tv.tok_end + 1)
          let ev : Int :=
            match parse_expiration (cstring_at buf2 tv.start) with
            | ParseExpResult.val n => n
            | ParseExpResult.undef => g
          if ev = 0 then
            phcr_loop_result.failed { st with buf := buf2, expiration := some ev }
          else
            phcr_loop tokens g fuel (i + 2) { st with buf := buf2, expiration := some ev }
        else
          phcr_loop tokens g fuel (i + 1) { st with buf := buf1 }
      else
        phcr_loop tokens g fuel (i + 1) st
    else
      phcr_loop_result.finished st

/-- `process_http_credentials_response` (flb_aws_credentials.c:820-944).
Returns the parsed credentials (NULL on any failure), the final value of
the `expiration` out-parameter (`none` when the loop never wrote it) and
the response buffer as it stands after the call.  The final check at lines
937-941 rejects the document when any of the three credential fields —
including `session_token` — was never set. -/
def process_http_credentials_response (response : List Char)
    (tokens : Option (List jsmntok)) (g : Int) :
    Option aws_credentials × Option Int × List Char :=
  match tokens with
  | none => (none, none, response)
  | some toks =>
      let st0 : phcr_state := ⟨response, none, none, none, none⟩
      match phcr_loop toks g (toks.length + 1) 0 st0 with
      | phcr_loop_result.failed st => (none, st.expiration, st.buf)
      | phcr_loop_result.finished st =>
          if st.access_key_id = none ∨ st.secret_access_key = none
              ∨ st.session_token = none then
            (none, st.expiration, st.buf)
          else
            (some ⟨st.access_key_id, st.secret_access_key, st.session_token⟩,
             st.expiration, st.buf)

/-- Buffers related by NUL-overwrites only: same length, and every byte is
either unchanged or has been overwritten with NUL. -/
def nul_only_mutation (inp out : List Char) : Prop :=
  out.length = inp.length ∧ ∀ j : Nat, out.get? j = inp.get? j ∨ out.get? j = some NUL

/-- The response buffer as it stands when the parsing loop ends (on either
exit path). -/
def phcr_result_buf : phcr_loop_result → List Char
  | phcr_loop_result.finished st => st.buf
  | phcr_loop_result.failed st => st.buf

/-! ## get_etag (plugins/out_stdout/s3_multipart.c:108-145)

`strstr` finds the first occurrence of "ETag:" in the NUL-terminated
response (here: the whole char list, with `size` its length, as at the call
sites).  The two index loops are bounded by `i < size`; `fuel` bounds the
structural recursion and `response.length` is always enough since each step
advances `i` by one and the loops stop at `size` at the latest. -/

def is_space_c (c : Char) : Bool :=
  c == ' ' || c == '\t' || c == '\n' || c == '\x0b' || c == '\x0c' || c == '\r'

def char_at (buf : List Char) (i : Nat) : Char := buf.getD i NUL

def strstr_idx : List Char → List Char → Option Nat
  | hay, needle =>
    if needle.isPrefixOf hay then some 0
    else
      match hay with
      | [] => none
      | _ :: t => (strstr_idx t needle).map (fun n => n + 1)

def scan_loop (p : Char → Bool) (response : List Char) : Nat → Nat → Nat
  | 0, i => i
  | fuel + 1, i =>
      if i < response.length ∧ p (char_at response i) = true then
        scan_loop p response fuel (i + 1)
      else i

/-- `get_etag` (s3_multipart.c:109-145): NULL when "ETag:" does not occur;
otherwise skip the key, advance across whitespace and quote characters,
then collect up to the next whitespace, quote or the end of the buffer
(`flb_sds_create_len(response + start, end - start)`; allocation modelled
as succeeding). -/
def get_etag (response : List Char) : Option (List Char) :=
  match strstr_idx response ("ETag:".data) with
  | none => none
  | some off =>
      let start := scan_loop (fun c => c == '"' || is_space_c c)
        response response.length (off + 5)
      let stop := scan_loop (fun c => !(c == '"' || is_space_c c))
        response response.length start
      some ((response.drop start).take (stop - start))

/-- The claim's description of `get_etag`, stated with `dropWhile` /
`takeWhile` over the suffix after the first "ETag:": the value following
the key with leading whitespace and quotes stripped, extending to the first
whitespace or quote or to the end of the buffer. -/
def get_etag_claim (response : List Char) : Option (List Char) :=
  match strstr_idx response ("ETag:".data) with
  | none => none
  | some off =>
      let v := (response.drop (off + 5)).dropWhile (fun c => c == '"' || is_space_c c)
      some (v.takeWhile (fun c => !(c == '"' || is_space_c c)))

/-! ## CloudWatch plugin construction
(`cb_cloudwatch_init`, plugins/out_cloudwatch_logs/cloudwatch_logs.c:54-102)

Only the configuration validation prefix is embedded: the checks at lines
74-102 depend solely on the host-supplied properties.  A property is
`none` when `flb_output_get_property` returns NULL.  The source field
`log_stream_prefix` is embedded as `log_stream_pfx`. -/

structure flb_cloudwatch_conf where
  log_group_name : Option String
  log_stream_name : Option String
  log_stream_pfx : Option String
deriving DecidableEq, Repr

inductive init_check where
  | missing_group
  | stream_config_error
  | proceeded
deriving DecidableEq, Repr

/-- Lines 74-102 of `cb_cloudwatch_init`: missing `log_group_name` is fatal
first; then having neither or both of `log_stream_name` and
`log_stream_prefix` is fatal; otherwise control proceeds past the check. -/
def cb_cloudwatch_init_stream_check (cfg : flb_cloudwatch_conf) : init_check :=
  match cfg.log_group_name with
  | none => init_check.missing_group
  | some _ =>
      if cfg.log_stream_name = none ∧ cfg.log_stream_pfx = none then
        init_check.stream_config_error
      else if cfg.log_stream_name ≠ none ∧ cfg.log_stream_pfx ≠ none then
        init_check.stream_config_error
      else
        init_check.proceeded

/-! ## Event sorting in a flush
(`cb_cloudwatch_flush`, cloudwatch_logs.c:366-369)

`struct event` is from cloudwatch_logs.h:32-38.  The flush sorts the
decoded event array with `qsort(buf->events, event_count, sizeof(struct
event), compare_events)`. -/

structure event where
  json : String
  len : Nat
  timestamp : Nat
deriving DecidableEq, Repr

/-- Modelled from the spec: `compare_events` is declared at
cloudwatch_api.h:63 but not defined in the tree; spec section 4.9 orders
events by timestamp (negative / zero / positive comparator). -/
def compare_events (a b : event) : Int :=
  if a.timestamp < b.timestamp then -1
  else if b.timestamp < a.timestamp then 1
  else 0

/-- The reordering performed by the `qsort` call at cloudwatch_logs.c:369,
as the contract of C `qsort` guarantees it: the output is some permutation
of the input that is non-decreasing under the comparator.  The C standard
leaves the relative order of elements comparing equal unspecified, so this
is a relation on input/output pairs, and every output the call may produce
satisfies it. -/
def cb_cloudwatch_flush_sort (input output : List event) : Prop :=
  output.Perm input ∧ output.Chain' (fun a b => compare_events a b ≤ 0)

/-- Stability on ties as the claim states it: events sharing a timestamp
keep their original input order. -/
def ties_keep_input_order (input output : List event) : Prop :=
  ∀ t : Nat, output.filter (fun e => e.timestamp == t)
      = input.filter (fun e => e.timestamp == t)

/-! ## Concrete inputs used by counterexamples and witnesses -/

/-- A well-formed credential document with no Token/SessionToken field
(long-lived keys), with the jsmn tokens of its successful tokenization. -/
def c6_response : List Char :=
  "\x7b\"AccessKeyId\":\"AKID\",\"SecretAccessKey\":\"SKID\",\"Expiration\":\"2019-12-18T21:27:58Z\"\x7d".data

def c6_tokens : List jsmntok :=
  [⟨jsmntype.OBJECT, 0, 83, 3⟩,
   ⟨jsmntype.STRING, 2, 13, 1⟩, ⟨jsmntype.STRING, 16, 20, 0⟩,
   ⟨jsmntype.STRING, 23, 38, 1⟩, ⟨jsmntype.STRING, 41, 45, 0⟩,
   ⟨jsmntype.STRING, 48, 58, 1⟩, ⟨jsmntype.STRING, 61, 81, 0⟩]

def sample_creds : aws_credentials :=
  { access_key_id := some "AKID", secret_access_key := some "SECRET",
    session_token := none }

def imds_state_at_deadline : aws_credentials_provider_imds :=
  { credentials := some sample_creds, cred_refresh := 100,
    imds_v2_token := some "tok", imds_v2_token_len := 3, token_refresh := 500 }

def http_state_past_deadline : aws_credentials_provider_http :=
  { credentials := some sample_creds, cred_refresh := 100,
    host := "169.254.170.2", path := "/v2/credentials/x" }

def ev_a : event := { json := "a", len := 1, timestamp := 5 }

def ev_b : event := { json := "b", len := 1, timestamp := 5 }

/-! # Theorems -/

/-- C1 counterexample: with a cached credential whose refresh deadline is
100 and the current time exactly 100 (so `now ≥ refresh_at`), the IMDS
provider returns the cached credential without attempting a refresh — the
modelled refresh outcome is a failure, so had the provider refreshed it
would have returned NULL.  The claim demands a refresh before returning
whenever `now ≥ refresh_at`. -/
theorem imds_returns_cached_at_deadline_cex :
    (get_credentials_fn_imds imds_state_at_deadline 100 none)
        = (some sample_creds, imds_state_at_deadline)
      ∧ imds_state_at_deadline.cred_refresh = 100 := by
  constructor
  · rfl
  · rfl

/-- C1 amended: the cached providers refresh only when the current time is
STRICTLY past `cred_refresh` (the source tests `time(NULL) > cred_refresh`,
flb_aws_credentials.c:343 and 587).  Strictly past the deadline the refresh
outcome is returned directly — NULL exactly when the refresh fails — while
at or before the deadline the cached credential is returned with no refresh
attempted. -/
theorem cached_provider_refresh_strictly_after_deadline
    (sti : aws_credentials_provider_imds) (sth : aws_credentials_provider_http)
    (now : Int) (fi fh : Option (aws_credentials × Int)) (ci ch : aws_credentials)
    (hci : sti.credentials = some ci) (hni : now > sti.cred_refresh)
    (hch : sth.credentials = some ch) (hnh : now > sth.cred_refresh) :
    ((get_credentials_fn_imds sti now fi).fst
        = match fi with | none => none | some (c, _) => some c)
    ∧ ((get_credentials_fn_http sth now fh).fst
        = match fh with | none => none | some (c, _) => some c)
    ∧ (∀ m : Int, ¬ m > sti.cred_refresh →
        get_credentials_fn_imds sti m fi = (some ci, sti))
    ∧ (∀ m : Int, ¬ m > sth.cred_refresh →
        get_credentials_fn_http sth m fh = (some ch, sth)) := by
  refine ⟨?_, ?_, ?_, ?_⟩
  · rw [get_credentials_fn_imds.eq_def, if_pos (Or.inr hni)]
    cases fi with
    | none => rfl
    | some p => cases p; rfl
  · rw [get_credentials_fn_http.eq_def, if_pos (Or.inr hnh)]
    cases fh with
    | none => rfl
    | some p => cases p; rfl
  · intro m hm
    rw [get_credentials_fn_imds.eq_def, if_neg]
    · rw [hci]
    · rintro (hnone | hgt)
      · rw [hci] at hnone; exact Option.noConfusion hnone
      · exact hm hgt
  · intro m hm
    rw [get_credentials_fn_http.eq_def, if_neg]
    · rw [hch]
    · rintro (hnone | hgt)
      · rw [hch] at hnone; exact Option.noConfusion hnone
      · exact hm hgt

/-- C1 witness: the amended theorem applied at a concrete provider state,
time 101 (strictly past the deadline 100) and a failing refresh. -/
theorem cached_provider_refresh_strictly_after_deadline_witness :
    (get_credentials_fn_imds imds_state_at_deadline 101 none).fst = none :=
  (cached_provider_refresh_strictly_after_deadline imds_state_at_deadline
    http_state_past_deadline 101 none none sample_creds sample_creds
    rfl (by decide) rfl (by decide)).1

/-- C3 counterexample: cached credential present, the deadline (100) is
passed (now = 101), the refresh fails — the provider keeps the cached
credential in its state but returns NULL to the caller, not the retained
(possibly expired) credential the claim promises. -/
theorem http_refresh_failure_returns_null_cex :
    get_credentials_fn_http http_state_past_deadline 101 none
        = (none, http_state_past_deadline)
      ∧ http_state_past_deadline.credentials = some sample_creds
      ∧ (none : Option aws_credentials) ≠ some sample_creds := by
  refine ⟨rfl, rfl, ?_⟩
  intro h
  exact Option.noConfusion h

/-- C3 amended: when the cached credential has passed its refresh deadline
and the refresh attempt fails, the previously cached credential is retained
unchanged in the provider's state, but `get_credentials` returns failure
(NULL) to the caller; the stale credential is not handed out. -/
theorem refresh_failure_retains_cache_returns_null
    (sti : aws_credentials_provider_imds) (sth : aws_credentials_provider_http)
    (now : Int) (ci ch : aws_credentials)
    (_hci : sti.credentials = some ci) (hni : now > sti.cred_refresh)
    (_hch : sth.credentials = some ch) (hnh : now > sth.cred_refresh) :
    get_credentials_fn_imds sti now none = (none, sti)
    ∧ get_credentials_fn_http sth now none = (none, sth) := by
  constructor
  · rw [get_credentials_fn_imds.eq_def, if_pos (Or.inr hni)]
  · rw [get_credentials_fn_http.eq_def, if_pos (Or.inr hnh)]

/-- C3 witness: the amended theorem at a concrete state past its
deadline. -/
theorem refresh_failure_retains_cache_returns_null_witness :
    get_credentials_fn_http http_state_past_deadline 101 none
      = (none, http_state_past_deadline) :=
  (refresh_failure_retains_cache_returns_null imds_state_at_deadline
    http_state_past_deadline 101 sample_creds sample_creds
    rfl (by decide) rfl (by decide)).2

/-- C9: `aws_credentials_destroy` evaluated on the failing input — a
credential with non-NULL access key and secret but NULL session token (the
long-lived-key shape produced by the env provider).  The trace of arguments
handed to `flb_sds_destroy` ends with `none`: the NULL `session_token` IS
passed to the string destructor, because the guard at
flb_aws_credentials.c:967 tests `secret_access_key` instead of
`session_token`.  Dually, with a NULL secret a non-NULL session token is
never destroyed (leaked).  The NULL-credentials no-op part of the claim
does hold. -/
theorem credentials_destroy_wrong_guard :
    aws_credentials_destroy (some sample_creds) = [some "AKID", some "SECRET", none]
    ∧ aws_credentials_destroy
        (some { access_key_id := some "AKID", secret_access_key := none,
                session_token := some "TOK" }) = [some "AKID"]
    ∧ aws_credentials_destroy none = [] := by
  refine ⟨rfl, rfl, rfl⟩

/-- C7: `parse_expiration` evaluated at the failing input
"2019-12-18T21:27:58Z" (the spec's own example).  The string parses under
the strict format, but the function falls off the end of its success branch
without returning, so the caller receives an unspecified value
(`ParseExpResult.undef`) instead of the epoch seconds 1576704478 that
`timegm` computed.  The failure branch does return 0 as the claim says. -/
theorem parse_expiration_success_branch_undefined :
    parse_expiration ("2019-12-18T21:27:58Z".data) = ParseExpResult.undef
    ∧ (match strptime_model ("2019-12-18T21:27:58Z".data) with
       | some t => timegm_model t
       | none => 0) = 1576704478
    ∧ parse_expiration ("not-a-timestamp".data) = ParseExpResult.val 0 := by
  refine ⟨rfl, by decide, rfl⟩

/-- C6: `process_http_credentials_response` on a well-formed credential
document carrying AccessKeyId, SecretAccessKey and a parsable Expiration
but no Token/SessionToken field returns NULL (parse failure) for every
possible value `g` of the unspecified expiration read, instead of
succeeding with an absent session token as the claim (and spec section 4.1)
requires: the final check at flb_aws_credentials.c:937-941 demands a
non-NULL `session_token`, and the NUL byte stored at `t->end + 1` (line
876) additionally corrupts every key comparison. -/
theorem phcr_rejects_tokenless_credentials (g : Int) :
    (process_http_credentials_response c6_response (some c6_tokens) g).1 = none := by
  rfl

/-- C5 counterexample: the response buffer after a call to
`process_http_credentials_response` is not byte-for-byte the input buffer —
on this document the bytes after each string token's closing quote have
been overwritten with NUL. -/
theorem phcr_mutates_buffer_cex :
    (process_http_credentials_response c6_response (some c6_tokens) 0).2.2
      ≠ c6_response := by
  decide

/-- C8: given `log_group_name` is configured (the check before it,
cloudwatch_logs.c:74-80, fails otherwise), `cb_cloudwatch_init` proceeds
past the stream-name validation (lines 82-102) exactly when precisely one
of `log_stream_name` and `log_stream_prefix` is configured, and having both
or neither is the fatal stream-configuration error. -/
theorem init_requires_exactly_one_stream_setting (cfg : flb_cloudwatch_conf)
    (h : cfg.log_group_name.isSome = true) :
    (cb_cloudwatch_init_stream_check cfg = init_check.proceeded
        ↔ cfg.log_stream_name.isSome ≠ cfg.log_stream_pfx.isSome)
    ∧ (cfg.log_stream_name.isSome = cfg.log_stream_pfx.isSome
        → cb_cloudwatch_init_stream_check cfg = init_check.stream_config_error) := by
  rcases cfg with ⟨g, sn, sp⟩
  cases g with
  | none => simp at h
  | some gv =>
      cases sn <;> cases sp <;>
        simp [cb_cloudwatch_init_stream_check]

/-- C8 witness: the theorem at a configuration with a group name and only
`log_stream_name` set. -/
theorem init_requires_exactly_one_stream_setting_witness :
    (cb_cloudwatch_init_stream_check
        { log_group_name := some "G", log_stream_name := some "S",
          log_stream_pfx := none } = init_check.proceeded
      ↔ (some "S" : Option String).isSome ≠ (none : Option String).isSome)
    ∧ ((some "S" : Option String).isSome = (none : Option String).isSome
      → cb_cloudwatch_init_stream_check
          { log_group_name := some "G", log_stream_name := some "S",
            log_stream_pfx := none } = init_check.stream_config_error) :=
  init_requires_exactly_one_stream_setting
    { log_group_name := some "G", log_stream_name := some "S",
      log_stream_pfx := none } rfl

/-- The chain walk returns NULL exactly when every element is NULL. -/
theorem first_some_eq_none_iff (rs : List (Option aws_credentials)) :
    get_credentials_fn_standard_chain rs = none ↔ ∀ r ∈ rs, r = none := by
  induction rs with
  | nil => simp [get_credentials_fn_standard_chain]
  | cons r rest ih =>
      cases r with
      | some c => simp [get_credentials_fn_standard_chain]
      | none => simp [get_credentials_fn_standard_chain, ih]

/-- The chain walk returns `some c` exactly when some element is the first
non-NULL one and equals `some c`. -/
theorem first_some_eq_some_iff (rs : List (Option aws_credentials))
    (c : aws_credentials) :
    get_credentials_fn_standard_chain rs = some c ↔
      ∃ i, ∃ hi : i < rs.length, rs.get ⟨i, hi⟩ = some c
        ∧ ∀ j, ∀ hj : j < rs.length, j < i → rs.get ⟨j, hj⟩ = none := by
  induction rs with
  | nil => simp [get_credentials_fn_standard_chain]
  | cons r rest ih =>
      cases r with
      | some d =>
          simp only [get_credentials_fn_standard_chain]
          constructor
          · intro hh
            refine ⟨0, Nat.succ_pos _, by simpa using hh, ?_⟩
            intro j hj hj0
            omega
          · rintro ⟨i, hi, hget, hb⟩
            cases i with
            | zero => simpa using hget
            | succ n =>
                have h0 := hb 0 (Nat.succ_pos _) (Nat.succ_pos n)
                simp at h0
      | none =>
          simp only [get_credentials_fn_standard_chain]
          rw [ih]
          constructor
          · rintro ⟨i, hi, hget, hb⟩
            refine ⟨i + 1, Nat.succ_lt_succ hi, by simpa using hget, ?_⟩
            intro j hj hji
            cases j with
            | zero => simp
            | succ m =>
                have hm : m < rest.length := Nat.lt_of_succ_lt_succ hj
                have := hb m hm (Nat.lt_of_succ_lt_succ hji)
                simpa using this
          · rintro ⟨i, hi, hget, hb⟩
            cases i with
            | zero => simp at hget
            | succ n =>
                refine ⟨n, Nat.lt_of_succ_lt_succ hi, by simpa using hget, ?_⟩
                intro j hj hjn
                have := hb (j + 1) (Nat.succ_lt_succ hj) (Nat.succ_lt_succ hjn)
                simpa using this

theorem get_map_fb (l : List provider_tag) (f : provider_tag → Option aws_credentials)
    (i : Nat) (hi : i < l.length) (hm : i < (l.map f).length) :
    (l.map f).get ⟨i, hm⟩ = f (l.get ⟨i, hi⟩) := by
  simp

theorem first_some_map_none_iff (l : List provider_tag)
    (f : provider_tag → Option aws_credentials) :
    get_credentials_fn_standard_chain (l.map f) = none
      ↔ ∀ i, ∀ hi : i < l.length, f (l.get ⟨i, hi⟩) = none := by
  rw [first_some_eq_none_iff]
  constructor
  · intro h i hi
    exact h _ (List.mem_map_of_mem f (List.get_mem l i hi))
  · intro h r hr
    obtain ⟨a, ha, rfl⟩ := List.mem_map.mp hr
    obtain ⟨⟨i, hi⟩, rfl⟩ := List.mem_iff_get.mp ha
    exact h i hi

theorem first_some_map_some_iff (l : List provider_tag)
    (f : provider_tag → Option aws_credentials) (c : aws_credentials) :
    get_credentials_fn_standard_chain (l.map f) = some c
      ↔ ∃ i, ∃ hi : i < l.length, f (l.get ⟨i, hi⟩) = some c
          ∧ ∀ j, ∀ hj : j < l.length, j < i → f (l.get ⟨j, hj⟩) = none := by
  rw [first_some_eq_some_iff]
  constructor
  · rintro ⟨i, hi, hget, hb⟩
    have hi2 : i < l.length := by simpa using hi
    refine ⟨i, hi2, ?_, ?_⟩
    · rw [get_map_fb l f i hi2 hi] at hget
      exact hget
    · intro j hj hji
      have hjm : j < (l.map f).length := by simpa using hj
      have hb2 := hb j hjm hji
      rw [get_map_fb l f j hj hjm] at hb2
      exact hb2
  · rintro ⟨i, hi, hget, hb⟩
    have him : i < (l.map f).length := by simpa using hi
    refine ⟨i, him, ?_, ?_⟩
    · rw [get_map_fb l f i hi him]
      exact hget
    · intro j hjm hji
      have hj : j < l.length := by simpa using hjm
      rw [get_map_fb l f j hj hjm]
      exact hb j hj hji

/-- C2: the chain built by `new_standard_chain_provider` is exactly the
fixed order env, profile, web-identity/EKS, IMDS, ECS with the declining
sub-providers filtered out (ECS declines precisely when its environment
variable is unset or empty); and for any outcome assignment `f` of the
sub-providers on one call, the chain returns `some c` iff some sub-provider
`i` returned `c` and every sub-provider before `i` returned nothing, and
returns NULL iff every sub-provider returned nothing. -/
theorem standard_chain_order_and_first_success (profile_ok eks_ok : Bool)
    (v : Option String) (f : provider_tag → Option aws_credentials) :
    new_standard_chain_provider profile_ok eks_ok v
      = canonical_chain_order.filter (fun t =>
          match t with
          | provider_tag.profile => profile_ok
          | provider_tag.eks => eks_ok
          | provider_tag.ecs => (new_ecs_provider v).isSome
          | _ => true)
    ∧ ((new_ecs_provider v).isSome = true ↔ ∃ s, v = some s ∧ 0 < s.length)
    ∧ (get_credentials_fn_standard_chain
          ((new_standard_chain_provider profile_ok eks_ok v).map f) = none
        ↔ ∀ i, ∀ hi : i < (new_standard_chain_provider profile_ok eks_ok v).length,
            f ((new_standard_chain_provider profile_ok eks_ok v).get ⟨i, hi⟩) = none)
    ∧ ∀ c, get_credentials_fn_standard_chain
          ((new_standard_chain_provider profile_ok eks_ok v).map f) = some c
        ↔ ∃ i, ∃ hi : i < (new_standard_chain_provider profile_ok eks_ok v).length,
            f ((new_standard_chain_provider profile_ok eks_ok v).get ⟨i, hi⟩) = some c
            ∧ ∀ j, ∀ hj : j < (new_standard_chain_provider profile_ok eks_ok v).length,
                j < i →
                  f ((new_standard_chain_provider profile_ok eks_ok v).get ⟨j, hj⟩) = none := by
  refine ⟨?_, ?_, first_some_map_none_iff _ _, fun c => first_some_map_some_iff _ _ c⟩
  · cases profile_ok <;> cases eks_ok <;>
      (cases v with
       | none => rfl
       | some s =>
           by_cases hs : s.length > 0 <;>
             simp [new_standard_chain_provider, new_ecs_provider,
                   canonical_chain_order, hs])
  · cases v with
    | none => simp [new_ecs_provider]
    | some s =>
        by_cases hs : s.length > 0
        · simp [new_ecs_provider, hs]
        · simp [new_ecs_provider, hs]

/-- C4 counterexample: two events with equal timestamps and different
messages.  Swapping them is among the outcomes the `qsort` call at
cloudwatch_logs.c:369 is allowed to produce (it is a permutation that is
non-decreasing under `compare_events`), and it does not keep the original
input order of the tied events, so the reordering is not a stable sort. -/
theorem flush_sort_unstable_cex :
    cb_cloudwatch_flush_sort [ev_a, ev_b] [ev_b, ev_a]
    ∧ ¬ ties_keep_input_order [ev_a, ev_b] [ev_b, ev_a] := by
  constructor
  · constructor
    · exact List.Perm.swap ev_a ev_b []
    · refine List.chain'_cons.mpr ⟨?_, List.chain'_singleton _⟩
      decide
  · intro hco
    have h5 := hco 5
    revert h5
    decide

/-- C4 amended: every reordering the `qsort` call may apply is a
permutation of the decoded input whose timestamps are non-decreasing
(pairwise, via the `compare_events` comparator); the relative order of
events sharing a timestamp is not specified. -/
theorem flush_sort_perm_nondecreasing (input output : List event)
    (h : cb_cloudwatch_flush_sort input output) :
    output.Perm input
    ∧ List.Pairwise (fun a b => a.timestamp ≤ b.timestamp) output := by
  refine ⟨h.1, ?_⟩
  haveI : IsTrans event (fun a b => a.timestamp ≤ b.timestamp) :=
    ⟨fun _ _ _ hab hbc => le_trans hab hbc⟩
  refine List.chain'_iff_pairwise.mp ?_
  refine h.2.imp ?_
  intro a b hab
  by_contra hn
  push_neg at hn
  have h1 : compare_events a b = 1 := by
    simp only [compare_events]
    rw [if_neg (by omega), if_pos hn]
  rw [h1] at hab
  omega

/-- C4 witness: the amended theorem at a concrete one-event flush. -/
theorem flush_sort_perm_nondecreasing_witness :
    ([ev_a] : List event).Perm [ev_a]
    ∧ List.Pairwise (fun a b => a.timestamp ≤ b.timestamp) [ev_a] :=
  flush_sort_perm_nondecreasing [ev_a] [ev_a]
    ⟨List.Perm.refl _, List.chain'_singleton _⟩

theorem nul_only_mutation_refl (b : List Char) : nul_only_mutation b b :=
  ⟨rfl, fun _ => Or.inl rfl⟩

theorem get?_set_nul_or (b : List Char) (n j : Nat) :
    (b.set n NUL).get? j = b.get? j ∨ (b.set n NUL).get? j = some NUL := by
  rw [List.get?_eq_getElem?, List.get?_eq_getElem?, List.getElem?_set']
  by_cases hnj : n = j
  · rw [if_pos hnj]
    cases hj : b[j]? with
    | none => left; simp
    | some x => right; simp
  · rw [if_neg hnj]
    left
    rfl

theorem nul_only_mutation_write (inp b : List Char) (i : Int)
    (h : nul_only_mutation inp b) : nul_only_mutation inp (write_nul b i) := by
  by_cases hi : 0 ≤ i
  · rw [write_nul, if_pos hi]
    refine ⟨by rw [List.length_set]; exact h.1, ?_⟩
    intro j
    rcases get?_set_nul_or b i.toNat j with hc | hc
    · rw [hc]
      exact h.2 j
    · right
      exact hc
  · rw [write_nul, if_neg hi]
    exact h

/-- Loop invariant: every write the parsing loop performs on the response
buffer is a NUL overwrite, on both exit paths. -/
theorem phcr_loop_buf_only_nul (tokens : List jsmntok) (g : Int) :
    ∀ fuel i st inp, nul_only_mutation inp st.buf →
      nul_only_mutation inp (phcr_result_buf (phcr_loop tokens g fuel i st)) := by
  intro fuel
  induction fuel with
  | zero =>
      intro i st inp h
      simpa [phcr_loop, phcr_result_buf] using h
  | succ fuel ih =>
      intro i st inp h
      simp only [phcr_loop]
      split_ifs with hguard hsent hstr h1 h2 h3 h4 hev
      all_goals
        first
        | exact h
        | (simp only [phcr_result_buf]
           exact nul_only_mutation_write _ _ _ (nul_only_mutation_write _ _ _ h))
        | exact ih _ _ _ (nul_only_mutation_write _ _ _ h)
        | exact ih _ _ _ (nul_only_mutation_write _ _ _ (nul_only_mutation_write _ _ _ h))
        | exact ih _ _ _ h

/-- C5 amended: `process_http_credentials_response` does mutate its input
— it stores NUL bytes into the buffer while scanning string tokens — but
that is the only mutation: for every response buffer and tokenizer output,
the buffer after the call has the length of the input and each of its bytes
is either the input byte or a NUL overwrite. -/
theorem phcr_mutation_only_nul_writes (response : List Char)
    (tokens : Option (List jsmntok)) (g : Int) :
    nul_only_mutation response (process_http_credentials_response response tokens g).2.2 := by
  cases tokens with
  | none => exact nul_only_mutation_refl _
  | some toks =>
      simp only [process_http_credentials_response]
      have hloop := phcr_loop_buf_only_nul toks g (toks.length + 1) 0
        ⟨response, none, none, none, none⟩ response (nul_only_mutation_refl _)
      cases hres : phcr_loop toks g (toks.length + 1) 0 ⟨response, none, none, none, none⟩ with
      | failed st =>
          rw [hres] at hloop
          simp only [phcr_result_buf] at hloop
          show nul_only_mutation response st.buf
          exact hloop
      | finished st =>
          rw [hres] at hloop
          simp only [phcr_result_buf] at hloop
          show nul_only_mutation response
            ((if st.access_key_id = none ∨ st.secret_access_key = none
                  ∨ st.session_token = none then
                ((none : Option aws_credentials), st.expiration, st.buf)
              else
                (some { access_key_id := st.access_key_id,
                        secret_access_key := st.secret_access_key,
                        session_token := st.session_token }, st.expiration, st.buf)).2.2)
          split_ifs <;> exact hloop

/-- `strstr` finds no occurrence exactly when the needle is a prefix of no
suffix of the haystack. -/
theorem strstr_idx_eq_none_iff (hay needle : List Char) :
    strstr_idx hay needle = none ↔ ∀ i : Nat, ¬ needle <+: List.drop i hay := by
  induction hay with
  | nil =>
      rw [strstr_idx]
      by_cases hp : needle.isPrefixOf ([] : List Char)
      · rw [if_pos hp]
        have hpre : needle <+: [] := List.isPrefixOf_iff_prefix.mp hp
        refine iff_of_false (by simp) ?_
        intro hall
        exact hall 0 (by simpa using hpre)
      · rw [if_neg hp]
        have hnp : ¬ needle <+: ([] : List Char) :=
          fun hcon => hp (List.isPrefixOf_iff_prefix.mpr hcon)
        refine iff_of_true rfl ?_
        intro i
        rw [List.drop_nil]
        exact hnp
  | cons c t ih =>
      rw [strstr_idx]
      by_cases hp : needle.isPrefixOf (c :: t)
      · rw [if_pos hp]
        have hpre : needle <+: (c :: t) := List.isPrefixOf_iff_prefix.mp hp
        refine iff_of_false (by simp) ?_
        intro hall
        exact hall 0 (by simpa using hpre)
      · rw [if_neg hp]
        show (strstr_idx t needle).map (fun n => n + 1) = none ↔ _
        constructor
        · intro hmap i
          have ht : strstr_idx t needle = none := Option.map_eq_none'.mp hmap
          cases i with
          | zero =>
              intro hcon
              exact hp (List.isPrefixOf_iff_prefix.mpr (by simpa using hcon))
          | succ n =>
              rw [List.drop_succ_cons]
              exact (ih.mp ht) n
        · intro hall
          have ht : strstr_idx t needle = none := by
            rw [ih]
            intro i
            have hnext := hall (i + 1)
            rwa [List.drop_succ_cons] at hnext
          rw [ht]
          rfl

/-- The C index loop `while (i < size && p(response[i])) i++;` lands at the
start index plus the length of the matching prefix of the dropped list. -/
theorem scan_loop_eq_takeWhile (p : Char → Bool) (response : List Char) :
    ∀ fuel i, response.length - i ≤ fuel →
      scan_loop p response fuel i
        = i + ((response.drop i).takeWhile p).length := by
  intro fuel
  induction fuel with
  | zero =>
      intro i hle
      have hdrop : response.drop i = [] := List.drop_eq_nil_of_le (by omega)
      rw [scan_loop, hdrop]
      simp
  | succ fuel ih =>
      intro i hle
      rw [scan_loop]
      by_cases hi : i < response.length
      · have hdrop : response.drop i = response[i] :: response.drop (i + 1) :=
          List.drop_eq_getElem_cons hi
        have hchar : char_at response i = response[i] := by
          simp only [char_at]
          exact List.getD_eq_getElem response NUL hi
        by_cases hpc : p (char_at response i) = true
        · rw [if_pos ⟨hi, hpc⟩, ih (i + 1) (by omega), hdrop,
              List.takeWhile_cons_of_pos (by rwa [hchar] at hpc)]
          simp only [List.length_cons]
          omega
        · rw [if_neg (fun hcon => hpc hcon.2), hdrop,
              List.takeWhile_cons_of_neg (by rwa [hchar] at hpc)]
          simp
      · have hdrop : response.drop i = [] := List.drop_eq_nil_of_le (by omega)
        rw [if_neg (fun hcon => hi hcon.1), hdrop]
        simp

theorem drop_length_takeWhile (p : Char → Bool) :
    ∀ X : List Char, X.drop (X.takeWhile p).length = X.dropWhile p := by
  intro X
  induction X with
  | nil => rfl
  | cons a l ih =>
      by_cases hpa : p a = true
      · rw [List.takeWhile_cons_of_pos hpa, List.dropWhile_cons_of_pos hpa,
            List.length_cons, List.drop_succ_cons]
        exact ih
      · rw [List.takeWhile_cons_of_neg hpa, List.dropWhile_cons_of_neg hpa]
        rfl

theorem take_length_takeWhile (p : Char → Bool) :
    ∀ X : List Char, X.take (X.takeWhile p).length = X.takeWhile p := by
  intro X
  induction X with
  | nil => rfl
  | cons a l ih =>
      by_cases hpa : p a = true
      · rw [List.takeWhile_cons_of_pos hpa, List.length_cons,
            List.take_succ_cons, ih]
      · rw [List.takeWhile_cons_of_neg hpa]
        rfl

/-- C10: `get_etag` returns NULL exactly when the response contains no
"ETag:" substring, and otherwise returns the value following the first
"ETag:" with leading whitespace and enclosing double quotes stripped,
extending to the first whitespace or quote or to the end of the buffer —
i.e. it coincides with the claim-worded `get_etag_claim` on every input. -/
theorem get_etag_extracts_value_after_first_etag (response : List Char) :
    get_etag response = get_etag_claim response
    ∧ (get_etag response = none
        ↔ ∀ i : Nat, ¬ ("ETag:".data <+: response.drop i)) := by
  constructor
  · cases hss : strstr_idx response ("ETag:".data) with
    | none => simp [get_etag, get_etag_claim, hss]
    | some off =>
        simp only [get_etag, get_etag_claim, hss]
        have h2 := scan_loop_eq_takeWhile (fun c => !(c == '"' || is_space_c c))
          response response.length
          (scan_loop (fun c => c == '"' || is_space_c c) response
            response.length (off + 5))
          (by omega)
        have h1 := scan_loop_eq_takeWhile (fun c => c == '"' || is_space_c c)
          response response.length (off + 5) (by omega)
        rw [h2, h1, Nat.add_sub_cancel_left, ← List.drop_drop,
            drop_length_takeWhile, take_length_takeWhile]
  · cases hss : strstr_idx response ("ETag:".data) with
    | none =>
        rw [← strstr_idx_eq_none_iff response ("ETag:".data)]
        simp [get_etag, hss]
    | some off =>
        rw [← strstr_idx_eq_none_iff response ("ETag:".data)]
        simp [get_etag, hss]
